import Mathlib

/-!
# Verification of the rsi-trade decision core

A shallow embedding of the decision core of the `rsi-trade` bot:
the indicator library (`src/indicators.py`), the risk manager
(`src/risk_manager.py`), the trailing-stop evaluator
(`src/executor.py`) and the three-timeframe signal engine
(`src/signal_engine.py`), together with theorems about the
properties stated in the specification.

Modelling conventions:
* Python floats are modelled as exact rationals (`ℚ`).
* A pandas series is a `List (Option ℚ)`: `none` stands for `NaN`
  (a value still inside an indicator's warm-up window).  Python/numpy
  comparisons involving `NaN` evaluate to `False`; the `ob*` helpers
  below reproduce exactly that semantics.
* Rational division in Lean is total with `q / 0 = 0`.  In every code
  path reasoned about below the denominators are guarded by the
  source's `replace(0, 1e-9)` idiom (or by explicit zero tests), so
  the `q / 0 = 0` convention is never observable in the theorems.
-/

/-! ## Indicator library (`src/indicators.py`) -/

/-- A pandas-style numeric series: `none` is `NaN`. -/
abbrev OSeries := List (Option ℚ)

/-- `series.diff()`: first entry `NaN`, then successive differences. -/
def diffS : List ℚ → OSeries
  | [] => []
  | x :: xs => none :: List.zipWith (fun a b => some (b - a)) (x :: xs) xs

/-- `series.shift(1)`: first entry `NaN`, then the previous values. -/
def shift1 : List ℚ → OSeries
  | [] => []
  | x :: xs => none :: ((x :: xs).dropLast.map some)

/-- Pointwise combination of two series; `NaN` is absorbing
(`omap2 f` returns `none` when either operand is undefined). -/
def omap2 (f : ℚ → ℚ → ℚ) : Option ℚ → Option ℚ → Option ℚ
  | some x, some y => some (f x y)
  | _, _ => none

/-- Elementwise arithmetic between two aligned series. -/
def zipO (f : ℚ → ℚ → ℚ) (xs ys : OSeries) : OSeries :=
  List.zipWith (omap2 f) xs ys

/-- `series.replace(0, eps)` on the defined entries. -/
def replace0 (eps : ℚ) (xs : OSeries) : OSeries :=
  xs.map (Option.map (fun v => if v = 0 then eps else v))

/-- The `1e-9` epsilon guard used by `src/indicators.py`. -/
def eps9 : ℚ := 1 / 1000000000

/-- `series.ewm(alpha=a, min_periods=minp, adjust=False).mean()`:
recursive exponential smoothing `m' = (1-a)*m + a*v`, the state `m`
starting at the first defined observation and carried across `NaN`
inputs; the output is masked to `NaN` until `minp` defined
observations have been seen.  `cnt` counts defined observations. -/
def ewmStep (a : ℚ) (m : Option ℚ) (v : ℚ) : ℚ :=
  match m with
  | none => v
  | some mv => (1 - a) * mv + a * v

def ewmGo (a : ℚ) (minp : ℕ) : Option ℚ → ℕ → OSeries → OSeries
  | _, _, [] => []
  | m, cnt, none :: rest =>
      (if minp ≤ cnt then m else none) :: ewmGo a minp m cnt rest
  | m, cnt, some v :: rest =>
      (if minp ≤ cnt + 1 then some (ewmStep a m v) else none) ::
        ewmGo a minp (some (ewmStep a m v)) (cnt + 1) rest

/-- Entry point for the exponentially weighted mean. -/
def ewm (a : ℚ) (minp : ℕ) (xs : OSeries) : OSeries :=
  ewmGo a minp none 0 xs

/-- `rsi(series, period)` from `src/indicators.py`: Wilder's RSI with
smoothing `alpha = 1/period`, `min_periods = period`, and the
`replace(0, 1e-9)` guard on the smoothed down-moves. -/
def rsi (xs : List ℚ) (period : ℕ) : OSeries :=
  let delta := diffS xs
  let up := delta.map (Option.map (fun d => max d 0))
  let down := delta.map (Option.map (fun d => max (-d) 0))
  let ma_up := ewm (1 / (period : ℚ)) period up
  let ma_down := ewm (1 / (period : ℚ)) period down
  let rs := zipO (fun u d => u / d) ma_up (replace0 eps9 ma_down)
  rs.map (Option.map (fun r => 100 - 100 / (1 + r)))

/-- One entry of the true range: `max(high-low, |high-prevClose|,
|low-prevClose|)`, where at the first bar (no previous close) the
row maximum skips the two `NaN` columns and is just `high - low`. -/
def tr3max (hi lo : ℚ) (pc : Option ℚ) : ℚ :=
  match pc with
  | none => hi - lo
  | some c => max (hi - lo) (max |hi - c| |lo - c|)

/-- The true-range series of `adx`. -/
def trList (h l c : List ℚ) : List ℚ :=
  List.zipWith3 tr3max h l (shift1 c)

/-- `np.where((up_move > down_move) & (up_move > 0), up_move, 0.0)`:
numpy comparisons with `NaN` are `False`, so any undefined operand
yields `0.0`. -/
def dmPlus (um dm : Option ℚ) : ℚ :=
  match um, dm with
  | some u, some d => if d < u ∧ 0 < u then u else 0
  | _, _ => 0

/-- `np.where((down_move > up_move) & (down_move > 0), down_move, 0.0)`. -/
def dmMinus (um dm : Option ℚ) : ℚ :=
  match um, dm with
  | some u, some d => if u < d ∧ 0 < d then d else 0
  | _, _ => 0

/-- `adx(high, low, close, period)` from `src/indicators.py`. -/
def adx (h l c : List ℚ) (period : ℕ) : OSeries :=
  let tr := trList h l c
  let um := diffS h
  let dm := List.zipWith (fun pl lo => Option.map (fun p => p - lo) pl) (shift1 l) l
  let plus_dm := List.zipWith dmPlus um dm
  let minus_dm := List.zipWith dmMinus um dm
  let a := 1 / (period : ℚ)
  let tr_smooth := ewm a period (tr.map some)
  let plus_dm_smooth := ewm a period (plus_dm.map some)
  let minus_dm_smooth := ewm a period (minus_dm.map some)
  let plus_di := zipO (fun dmv trv => 100 * (dmv / trv)) plus_dm_smooth (replace0 eps9 tr_smooth)
  let minus_di := zipO (fun dmv trv => 100 * (dmv / trv)) minus_dm_smooth (replace0 eps9 tr_smooth)
  let dx := zipO (fun p m => 100 * (|p - m| / (if p + m = 0 then eps9 else p + m))) plus_di minus_di
  ewm a period dx

/-! ## Risk manager (`src/risk_manager.py`) -/

/-- The `config['risk']` dictionary fields read by `RiskManager`. -/
structure RMConfig where
  max_daily_loss_percent : ℚ
  max_consecutive_losses : ℕ
  risk_percent_per_trade : ℚ

/-- The mutable ledger owned by a `RiskManager` instance. -/
structure RiskState where
  daily_loss : ℚ
  consecutive_losses : ℕ
  halt_trading : Bool

/-- One closed deal from broker history. -/
structure Deal where
  profit : ℚ
  swap : ℚ
  commission : ℚ

/-- `RiskManager.sync_daily_stats`: fold the day's deals in time
order, skipping zero-net deals, accumulating the net sum and the
current losing streak (reset on any non-negative deal); then replace
`daily_loss` and `consecutive_losses`.  `halt_trading` is untouched. -/
def sync_daily_stats (deals : List Deal) (s : RiskState) : RiskState :=
  let acc := deals.foldl
    (fun (acc : ℚ × ℕ) d =>
      let net := d.profit + d.swap + d.commission
      if net = 0 then acc
      else (acc.1 + net, if net < 0 then acc.2 + 1 else 0))
    (0, 0)
  { s with
    daily_loss := if acc.1 < 0 then |acc.1| else 0
    consecutive_losses := acc.2 }

/-- `RiskManager.check_safety(account_balance)`: returns the decision
together with the state after the call (the only mutation is setting
the sticky `halt_trading` latch). -/
def check_safety (cfg : RMConfig) (s : RiskState) (balance : ℚ) :
    Bool × RiskState :=
  if s.halt_trading then (false, s)
  else if balance ≤ 0 then (false, { s with halt_trading := true })
  else if s.daily_loss ≥ balance * (cfg.max_daily_loss_percent / 100) then
    (false, { s with halt_trading := true })
  else if cfg.max_consecutive_losses ≤ s.consecutive_losses then
    (false, { s with halt_trading := true })
  else (true, s)

/-- `RiskManager.update_metrics(profit)`: the incremental post-trade
ledger update.  Like `sync_daily_stats` it never touches the
`halt_trading` latch. -/
def update_metrics (profit : ℚ) (s : RiskState) : RiskState :=
  if profit < 0 then
    { s with
      daily_loss := s.daily_loss + |profit|
      consecutive_losses := s.consecutive_losses + 1 }
  else
    let dl := s.daily_loss - profit
    { s with
      daily_loss := if dl < 0 then 0 else dl
      consecutive_losses := 0 }

/-- The broker symbol specification consumed by the sizing code. -/
structure SymbolInfo where
  point : ℚ
  trade_tick_size : ℚ
  trade_tick_value : ℚ
  volume_step : ℚ
  volume_min : ℚ
  volume_max : ℚ

/-- Python's `round` to an integer: round half to even. -/
def roundHalfEven (x : ℚ) : ℤ :=
  let f := ⌊x⌋
  let r := x - (f : ℚ)
  if r < 1 / 2 then f
  else if 1 / 2 < r then f + 1
  else if Even f then f else f + 1

/-- Python's `round(x, 2)` (exact-rational model of the float call). -/
def round2 (x : ℚ) : ℚ := ((roundHalfEven (100 * x) : ℤ) : ℚ) / 100

/-- `RiskManager.compute_lot_size(symbol, sl_price, entry_price,
account_balance)`.  The symbol lookup is passed in as `info?`
(`none` models `get_symbol_info` returning `None`).  The returned
state is the state after the embedded `check_safety` call, the only
mutation the method performs.  The source divides by
`symbol_info.volume_step` without a zero test; the theorems below
always assume `volume_step > 0` so the `q / 0 = 0` convention is
never exercised. -/
def compute_lot_size (cfg : RMConfig) (info? : Option SymbolInfo)
    (s : RiskState) (sl_price entry_price balance : ℚ) : ℚ × RiskState :=
  let safe := check_safety cfg s balance
  if !safe.1 then (0, safe.2)
  else
    let risk_amount := balance * (cfg.risk_percent_per_trade / 100)
    match info? with
    | none => (0, safe.2)
    | some info =>
        let price_diff := |entry_price - sl_price|
        if price_diff = 0 then (0, safe.2)
        else if info.trade_tick_size = 0 then (0, safe.2)
        else
          let loss_per_lot := (price_diff / info.trade_tick_size) * info.trade_tick_value
          if loss_per_lot = 0 then (0, safe.2)
          else
            let lot_raw := risk_amount / loss_per_lot
            let lot_q := (⌊lot_raw / info.volume_step⌋ : ℚ) * info.volume_step
            if lot_q < info.volume_min then (0, safe.2)
            else
              let lot_c := if lot_q > info.volume_max then info.volume_max else lot_q
              (round2 lot_c, safe.2)

/-- A sequence of later `check_safety` calls on the same manager: in
between two calls the ledger fields `daily_loss` and
`consecutive_losses` may be overwritten arbitrarily (by
`sync_daily_stats` or `update_metrics`, neither of which touches the
`halt_trading` latch); each event `(balance, dl, cl)` installs the
new ledger values and then calls `check_safety balance`.  The list
collects the successive decisions. -/
def safety_trace (cfg : RMConfig) (s : RiskState) :
    List (ℚ × ℚ × ℕ) → List Bool
  | [] => []
  | (b, dl, cl) :: rest =>
      let s' : RiskState :=
        { daily_loss := dl, consecutive_losses := cl,
          halt_trading := s.halt_trading }
      let call := check_safety cfg s' b
      call.1 :: safety_trace cfg call.2 rest

/-! ## Trailing-stop evaluator (`src/executor.py`) -/

/-- The `config['trailing']` dictionary read by
`Executor.manage_trailing_stops`. -/
structure TrailingConfig where
  enabled : Bool
  activation_rr : ℚ
  trailing_dist_rr : ℚ

/-- The configuration dictionary handed to `Executor`.  `sl_points`
is present in the full configuration (it drives the signal engine's
fixed stop distance) but is never read by the trailing-stop code. -/
structure ExecConfig where
  trailing : TrailingConfig
  sl_points : ℚ

/-- One open position as reported by the adapter
(`type`: 0 = BUY, 1 = SELL). -/
structure OpenPosition where
  ticket : ℕ
  price_open : ℚ
  sl : ℚ
  price_current : ℚ
  type : ℕ

/-- A stop-modification request `modify_position(ticket, sl=new_sl)`. -/
structure ModRequest where
  ticket : ℕ
  new_sl : ℚ

/-- `r_value = r_points * point` with the hardcoded `r_points = 500`
from `src/executor.py` (lines 110-111): the "risk unit" used by the
trailing logic is 500 price increments, independent of any
configuration entry. -/
def r_value (point : ℚ) : ℚ := 500 * point

/-- `Modelled from the spec`: §4.4 describes the risk unit as "a
configured number of price increments"; the only configured point
count in the recognised option surface (§6) is `sl_points`.  Used
solely to compare the specification's wording against the source. -/
def spec_risk_unit (cfg : ExecConfig) (point : ℚ) : ℚ :=
  cfg.sl_points * point

/-- The body of the position loop of
`Executor.manage_trailing_stops`: given the per-symbol `point`, the
evaluation of one open position, returning the requested new stop
(or `none` when no modification is sent).  Positions with no
existing stop (`sl == 0`) are skipped before any computation. -/
def process_position (cfg : ExecConfig) (point : ℚ) (pos : OpenPosition) :
    Option ℚ :=
  if pos.sl = 0 then none
  else
    let activation_dist := r_value point * cfg.trailing.activation_rr
    let trailing_dist := r_value point * cfg.trailing.trailing_dist_rr
    if pos.type = 0 then
      let profit := pos.price_current - pos.price_open
      if profit ≥ activation_dist then
        let new_sl := pos.price_current - trailing_dist
        if new_sl > pos.sl then some new_sl else none
      else none
    else if pos.type = 1 then
      let profit := pos.price_open - pos.price_current
      if profit ≥ activation_dist then
        let new_sl := pos.price_current + trailing_dist
        if pos.sl = 0 ∨ new_sl < pos.sl then some new_sl else none
      else none
    else none

/-- `Executor.manage_trailing_stops`: the list of stop-modification
requests emitted over the open positions of one evaluation. -/
def manage_trailing_stops (cfg : ExecConfig) (point : ℚ)
    (positions : List OpenPosition) : List ModRequest :=
  if !cfg.trailing.enabled then []
  else positions.filterMap fun pos =>
    (process_position cfg point pos).map fun nsl =>
      { ticket := pos.ticket, new_sl := nsl }

/-! ## Signal engine (`src/signal_engine.py`)

Bars carry their indicator annotations as `Option ℚ` (`none` =
still inside the warm-up window / `NaN`), matching how
`compute_indicators` annotates the dataframe before `generate`
reads it.  Comparisons on annotations use the `ob*` helpers, which
are `false` whenever an operand is undefined — exactly Python's
`NaN` comparison semantics. -/

/-- One indicator-annotated bar of a timeframe's dataframe. -/
structure Bar where
  time : ℕ
  high : ℚ
  low : ℚ
  close : ℚ
  rsi : Option ℚ
  rsi_wma : Option ℚ
  rsi_ema : Option ℚ
  adx : Option ℚ

/-- Placeholder bar for the (never exercised) out-of-range list
accesses; every theorem below either supplies concrete lists or
carries length hypotheses that keep accesses in range. -/
def defBar : Bar :=
  { time := 0, high := 0, low := 0, close := 0,
    rsi := none, rsi_wma := none, rsi_ema := none, adx := none }

/-- `a <= b` under `NaN` semantics. -/
def obLE (a b : Option ℚ) : Bool :=
  match a, b with
  | some x, some y => decide (x ≤ y)
  | _, _ => false

/-- `a < b` under `NaN` semantics. -/
def obLT (a b : Option ℚ) : Bool :=
  match a, b with
  | some x, some y => decide (x < y)
  | _, _ => false

/-- `a >= b` under `NaN` semantics. -/
def obGE (a b : Option ℚ) : Bool :=
  match a, b with
  | some x, some y => decide (y ≤ x)
  | _, _ => false

/-- `a > b` under `NaN` semantics. -/
def obGT (a b : Option ℚ) : Bool :=
  match a, b with
  | some x, some y => decide (y < x)
  | _, _ => false

/-- Python's chained `lo <= a <= hi` under `NaN` semantics. -/
def obBand (lo : ℚ) (a : Option ℚ) (hi : ℚ) : Bool :=
  match a with
  | some x => decide (lo ≤ x) && decide (x ≤ hi)
  | none => false

/-- The `config['strategy']` fields read by `SignalEngine.generate`
(`adx_threshold` defaults to 25 and `sl_points` to 500 via
`config.get`; the defaults live in the configuration model). -/
structure StratConfig where
  adx_threshold : ℚ
  rsi_upper : ℚ
  rsi_lower : ℚ
  tf2_zone_tolerance : ℚ
  sl_method : String
  swing_lookback : ℕ
  sl_points : ℚ
  tp_rr : ℚ

/-- The immutable `Signal` dataclass. -/
structure Signal where
  symbol : String
  side : String
  entry_price : ℚ
  sl_price : ℚ
  tp_price : ℚ
  confidence : ℚ
  reason : String
  tf1_close_time : ℕ

/-- The magnitude-based fallback increment of `generate` when no
`point` is supplied by the caller. -/
def heuristicPoint (entry : ℚ) : ℚ :=
  if entry > 500 then (if entry > 20000 then 1 else 1 / 100)
  else if entry > 20 then 1 / 1000
  else 1 / 100000

/-- `df1.iloc[-lookback:]`: the last `lookback` rows; Python slicing
makes `-0` the full frame. -/
def swingWindow (df1 : List Bar) (lookback : ℕ) : List Bar :=
  if lookback = 0 then df1 else df1.drop (df1.length - lookback)

/-- `window['low'].min()` (the window is never empty when `df1` is
non-empty, so the `[]` default is unreachable there). -/
def minLow : List Bar → ℚ
  | [] => 0
  | b :: bs => bs.foldl (fun acc x => min acc x.low) b.low

/-- `window['high'].max()`. -/
def maxHigh : List Bar → ℚ
  | [] => 0
  | b :: bs => bs.foldl (fun acc x => max acc x.high) b.high

/-- The cascade of `SignalEngine.generate` after the ADX pre-filter:
bias (slow TF), zone (mid TF), confirmation (fast TF), then price
construction.  Lines 74-83 of the source compute a preliminary bias
that lines 90-96 unconditionally overwrite, so only the latter
assignment is behaviourally relevant and is what is embedded; in
particular the `if not bias` guard of line 98 can never fire. -/
def cascadeAfterAdx (cfg : StratConfig) (df3 df2 df1 : List Bar)
    (symbol : String) (point : Option ℚ) : Option Signal :=
  let curr3 := df3.getLastD defBar
  let bias : String :=
    if obGE curr3.rsi (some cfg.rsi_upper) then "LONG"
    else if obLE curr3.rsi (some cfg.rsi_lower) then "SHORT"
    else if obGT curr3.rsi curr3.rsi_wma then "LONG" else "SHORT"
  let curr2 := df2.getLastD defBar
  let dist2 := omap2 (fun a b => |a - b|) curr2.rsi curr2.rsi_wma
  let in_zone : Bool :=
    if bias = "LONG" then
      obLE dist2 (some cfg.tf2_zone_tolerance) || obBand 40 curr2.rsi 55
    else
      obLE dist2 (some cfg.tf2_zone_tolerance) || obBand 45 curr2.rsi 60
  if !in_zone then none
  else
    let curr1 := df1.getLastD defBar
    let prev1 := df1.dropLast.getLastD defBar
    let confirmed : Bool :=
      if bias = "LONG" then
        (obLE prev1.rsi_ema prev1.rsi_wma && obGT curr1.rsi_ema curr1.rsi_wma) ||
        (obLE prev1.rsi prev1.rsi_wma && obGT curr1.rsi curr1.rsi_wma)
      else
        (obGE prev1.rsi_ema prev1.rsi_wma && obLT curr1.rsi_ema curr1.rsi_wma) ||
        (obGE prev1.rsi prev1.rsi_wma && obLT curr1.rsi curr1.rsi_wma)
    if !confirmed then none
    else
      let entry_price := curr1.close
      let sl_price :=
        if cfg.sl_method = "swing" then
          let window := swingWindow df1 cfg.swing_lookback
          if bias = "LONG" then minLow window else maxHigh window
        else
          let pointVal :=
            match point with
            | some p => p
            | none => heuristicPoint entry_price
          let sl_dist := cfg.sl_points * pointVal
          if bias = "LONG" then entry_price - sl_dist
          else entry_price + sl_dist
      let dist := |entry_price - sl_price|
      let tp_price :=
        if bias = "LONG" then entry_price + dist * cfg.tp_rr
        else entry_price - dist * cfg.tp_rr
      some { symbol := symbol, side := bias, entry_price := entry_price,
             sl_price := sl_price, tp_price := tp_price,
             confidence := 4 / 5, reason := "Crossover",
             tf1_close_time := curr1.time }

/-- `SignalEngine.generate(df3, df2, df1, symbol, point)`: empty-frame
guard, then the ADX pre-filter on the latest fast-TF bar (which
filters only when the ADX value is defined), then the cascade. -/
def generate (cfg : StratConfig) (df3 df2 df1 : List Bar)
    (symbol : String) (point : Option ℚ) : Option Signal :=
  if df3.isEmpty || df2.isEmpty || df1.isEmpty then none
  else
    let curr1 := df1.getLastD defBar
    let adxFiltered : Bool :=
      match curr1.adx with
      | some a => decide (a < cfg.adx_threshold)
      | none => false
    if adxFiltered then none
    else cascadeAfterAdx cfg df3 df2 df1 symbol point

/-! ## Theorems: risk manager -/

/-- A halt condition of `check_safety`: the disjunction, in source
order, of the three circuit breakers. -/
def haltCondition (cfg : RMConfig) (s : RiskState) (balance : ℚ) : Prop :=
  balance ≤ 0 ∨
  s.daily_loss ≥ balance * (cfg.max_daily_loss_percent / 100) ∨
  cfg.max_consecutive_losses ≤ s.consecutive_losses

theorem check_safety_fire (cfg : RMConfig) (s : RiskState) (b : ℚ)
    (hfire : haltCondition cfg s b) :
    (check_safety cfg s b).1 = false ∧
    (check_safety cfg s b).2.halt_trading = true := by
  unfold check_safety
  split_ifs with h1 h2 h3 h4
  · exact ⟨rfl, h1⟩
  · exact ⟨rfl, rfl⟩
  · exact ⟨rfl, rfl⟩
  · exact ⟨rfl, rfl⟩
  · rcases hfire with h | h | h
    · exact absurd h h2
    · exact absurd h h3
    · exact absurd h h4

theorem check_safety_halted (cfg : RMConfig) (s : RiskState) (b : ℚ)
    (hs : s.halt_trading = true) :
    check_safety cfg s b = (false, s) := by
  simp [check_safety, hs]

theorem check_safety_ledger_frame (cfg : RMConfig) (s : RiskState) (b : ℚ) :
    (check_safety cfg s b).2.daily_loss = s.daily_loss ∧
    (check_safety cfg s b).2.consecutive_losses = s.consecutive_losses := by
  unfold check_safety
  split_ifs <;> exact ⟨rfl, rfl⟩

theorem safety_trace_halted (cfg : RMConfig) :
    ∀ (events : List (ℚ × ℚ × ℕ)) (s : RiskState),
      s.halt_trading = true → ∀ r ∈ safety_trace cfg s events, r = false := by
  intro events
  induction events with
  | nil =>
      intro s _ r hr
      simp [safety_trace] at hr
  | cons e rest ih =>
      obtain ⟨b, dl, cl⟩ := e
      intro s hs r hr
      have hcall :
          check_safety cfg ⟨dl, cl, s.halt_trading⟩ b =
            (false, ⟨dl, cl, s.halt_trading⟩) :=
        check_safety_halted cfg _ b hs
      simp only [safety_trace, hcall] at hr
      rcases List.mem_cons.mp hr with h | h
      · exact h
      · exact ih ⟨dl, cl, s.halt_trading⟩ hs r h

/-- C1: once any one halt condition (balance ≤ 0, daily-loss limit,
or consecutive-loss limit) has fired in a `check_safety` call, every
subsequent `check_safety` call on the same `RiskManager` denies,
regardless of the balances passed and of arbitrary later overwrites
of the ledger fields (`sync_daily_stats` / `update_metrics` never
touch the `halt_trading` latch, so `safety_trace` lets every event
install arbitrary ledger values before its call). -/
theorem check_safety_latch_permanent (cfg : RMConfig) (s : RiskState)
    (b : ℚ) (hfire : haltCondition cfg s b) :
    (check_safety cfg s b).1 = false ∧
    ∀ (events : List (ℚ × ℚ × ℕ)),
      ∀ r ∈ safety_trace cfg (check_safety cfg s b).2 events, r = false := by
  obtain ⟨h1, h2⟩ := check_safety_fire cfg s b hfire
  exact ⟨h1, fun events r hr => safety_trace_halted cfg events _ h2 r hr⟩

/-- Witness for C1: a manager at its consecutive-loss limit is
denied, and the next call — with a recovered balance and a cleared
ledger — is denied as well. -/
theorem check_safety_latch_permanent_witness :
    (check_safety ⟨5, 3, 1⟩ ⟨0, 3, false⟩ 100).1 = false ∧
    safety_trace ⟨5, 3, 1⟩ (check_safety ⟨5, 3, 1⟩ ⟨0, 3, false⟩ 100).2
      [(1000, 0, 0)] = [false] := by
  have h := check_safety_latch_permanent ⟨5, 3, 1⟩ ⟨0, 3, false⟩ 100
    (Or.inr (Or.inr (by norm_num)))
  refine ⟨h.1, ?_⟩
  norm_num [safety_trace, check_safety]

/-- Counterexample to C3 as stated: after syncing the deal history
[+100, −50] the streak is 1, not 0 — the final losing deal starts a
new one-deal losing streak under the code's own reset rule. -/
theorem sync_plus100_minus50_streak_ne_zero :
    (sync_daily_stats [⟨100, 0, 0⟩, ⟨-50, 0, 0⟩] ⟨0, 0, false⟩).consecutive_losses = 1 ∧
    (1 : ℕ) ≠ 0 := by
  norm_num [sync_daily_stats]

/-- C3 (amended): after `sync_daily_stats` over the deal history
[+100, −50] (zero swap and commission), the state satisfies
`daily_loss = 0` and `consecutive_losses = 1` (not 0: the trailing
−50 deal is a one-deal losing streak), for any prior ledger state. -/
theorem sync_plus100_minus50_state (s : RiskState) :
    (sync_daily_stats [⟨100, 0, 0⟩, ⟨-50, 0, 0⟩] s).daily_loss = 0 ∧
    (sync_daily_stats [⟨100, 0, 0⟩, ⟨-50, 0, 0⟩] s).consecutive_losses = 1 := by
  norm_num [sync_daily_stats]

/-- C8: after `sync_daily_stats` over the deal history
[+100, −50, −60] the state has `daily_loss = 10` (the absolute day
net) and `consecutive_losses = 2`; the values replace the previous
ledger (the result is independent of `s.daily_loss` and
`s.consecutive_losses`), and the halt latch is untouched. -/
theorem sync_plus100_minus50_minus60_state (s : RiskState) :
    sync_daily_stats [⟨100, 0, 0⟩, ⟨-50, 0, 0⟩, ⟨-60, 0, 0⟩] s =
      { daily_loss := 10, consecutive_losses := 2,
        halt_trading := s.halt_trading } := by
  norm_num [sync_daily_stats]

/-- C10: `compute_lot_size` is not a read-only query: whenever a halt
condition holds at call time it returns 0 and, as a side effect,
sets the sticky `halt_trading` latch, leaving the other ledger
fields unchanged; every later `check_safety` call then denies even
if the triggering condition has cleared. -/
theorem compute_lot_size_unsafe_effect (cfg : RMConfig)
    (info? : Option SymbolInfo) (s : RiskState) (sl entry b : ℚ)
    (hfire : haltCondition cfg s b) :
    (compute_lot_size cfg info? s sl entry b).1 = 0 ∧
    (compute_lot_size cfg info? s sl entry b).2.halt_trading = true ∧
    (compute_lot_size cfg info? s sl entry b).2.daily_loss = s.daily_loss ∧
    (compute_lot_size cfg info? s sl entry b).2.consecutive_losses =
      s.consecutive_losses ∧
    ∀ b', (check_safety cfg (compute_lot_size cfg info? s sl entry b).2 b').1 = false := by
  obtain ⟨hfalse, hhalt⟩ := check_safety_fire cfg s b hfire
  obtain ⟨hdl, hcl⟩ := check_safety_ledger_frame cfg s b
  have hres : compute_lot_size cfg info? s sl entry b =
      (0, (check_safety cfg s b).2) := by
    simp only [compute_lot_size, hfalse]
    rfl
  rw [hres]
  refine ⟨rfl, hhalt, hdl, hcl, fun b' => ?_⟩
  rw [check_safety_halted cfg _ b' hhalt]

/-- Witness for C10: a manager whose daily loss of 100 already
exceeds 5% of the balance 1000 is sized to 0, latched, its ledger
untouched, and a later call with a wealthy balance still denies. -/
theorem compute_lot_size_unsafe_effect_witness :
    (compute_lot_size ⟨5, 3, 1⟩ (some ⟨1/100000, 1, 1000, 1/100, 1/100, 100⟩)
      ⟨100, 0, false⟩ 1 2 1000).1 = 0 ∧
    (compute_lot_size ⟨5, 3, 1⟩ (some ⟨1/100000, 1, 1000, 1/100, 1/100, 100⟩)
      ⟨100, 0, false⟩ 1 2 1000).2.halt_trading = true ∧
    (compute_lot_size ⟨5, 3, 1⟩ (some ⟨1/100000, 1, 1000, 1/100, 1/100, 100⟩)
      ⟨100, 0, false⟩ 1 2 1000).2.daily_loss = 100 ∧
    (compute_lot_size ⟨5, 3, 1⟩ (some ⟨1/100000, 1, 1000, 1/100, 1/100, 100⟩)
      ⟨100, 0, false⟩ 1 2 1000).2.consecutive_losses = 0 ∧
    (check_safety ⟨5, 3, 1⟩
      (compute_lot_size ⟨5, 3, 1⟩ (some ⟨1/100000, 1, 1000, 1/100, 1/100, 100⟩)
        ⟨100, 0, false⟩ 1 2 1000).2 999999).1 = false := by
  have h := compute_lot_size_unsafe_effect ⟨5, 3, 1⟩
    (some ⟨1/100000, 1, 1000, 1/100, 1/100, 100⟩) ⟨100, 0, false⟩ 1 2 1000
    (Or.inr (Or.inl (by norm_num)))
  exact ⟨h.1, h.2.1, h.2.2.1, h.2.2.2.1, h.2.2.2.2 999999⟩

theorem roundHalfEven_intCast (z : ℤ) : roundHalfEven (z : ℚ) = z := by
  simp [roundHalfEven]

theorem round2_intCast_div (z : ℤ) : round2 ((z : ℚ) / 100) = (z : ℚ) / 100 := by
  unfold round2
  rw [show (100 : ℚ) * ((z : ℚ) / 100) = (z : ℚ) by field_simp, roundHalfEven_intCast]

theorem round2_natCast_div (n : ℕ) :
    round2 ((n : ℚ) / 100) = (n : ℚ) / 100 := by
  rw [show ((n : ℕ) : ℚ) / 100 = ((n : ℤ) : ℚ) / 100 by push_cast; ring,
    round2_intCast_div]

theorem roundHalfEven_ge_floor (x : ℚ) : ⌊x⌋ ≤ roundHalfEven x := by
  simp only [roundHalfEven]
  split_ifs <;> omega

theorem roundHalfEven_le_floor_add_one (x : ℚ) : roundHalfEven x ≤ ⌊x⌋ + 1 := by
  simp only [roundHalfEven]
  split_ifs <;> omega

theorem roundHalfEven_mono (x y : ℚ) (hxy : x ≤ y) :
    roundHalfEven x ≤ roundHalfEven y := by
  rcases lt_or_eq_of_le (Int.floor_le_floor hxy) with hf | hf
  · calc roundHalfEven x ≤ ⌊x⌋ + 1 := roundHalfEven_le_floor_add_one x
      _ ≤ ⌊y⌋ := by omega
      _ ≤ roundHalfEven y := roundHalfEven_ge_floor y
  · simp only [roundHalfEven]
    rw [← hf]
    split_ifs <;> first | omega | (exfalso; linarith)

theorem round2_mono (x y : ℚ) (hxy : x ≤ y) : round2 x ≤ round2 y := by
  unfold round2
  have h := roundHalfEven_mono (100 * x) (100 * y) (by linarith)
  have h' : ((roundHalfEven (100 * x) : ℤ) : ℚ) ≤
      ((roundHalfEven (100 * y) : ℤ) : ℚ) := by exact_mod_cast h
  linarith

/-- Counterexample to C4 as stated: volumes 0.007 are tradable here
(`volume_step = volume_min = 0.001`, `volume_max = 0.007`), the safe
sizing path produces exactly 0.007 lots, and the final
`round(lot, 2)` lifts it to 0.01 — strictly above `volume_max`. -/
theorem compute_lot_size_round_exceeds_max :
    (compute_lot_size ⟨50, 5, 1⟩
      (some ⟨1/100000, 1, 1000, 1/1000, 1/1000, 7/1000⟩)
      ⟨0, 0, false⟩ 1 2 700).1 = 1/100 ∧
    ¬((1 : ℚ)/100 ≤ 7/1000) := by
  norm_num [compute_lot_size, check_safety, round2, roundHalfEven]

/-- C4 (amended): for broker volume bounds expressed at the 2-decimal
precision the final rounding works in — `volume_min` and `volume_max`
nonnegative integer multiples of 0.01 with `volume_min ≤ volume_max` —
and any positive `volume_step`, the value returned by
`compute_lot_size` is never strictly between 0 and `volume_min` and
never exceeds `volume_max`: `round(lot, 2)` is monotone and fixes the
0.01-grid endpoints, so the bounds survive the rounding.  (Without the
grid restriction on the bounds themselves the final `round(lot, 2)`
can push the clamped result above `volume_max`, see the
counterexample.) -/
theorem compute_lot_size_volume_bounds (cfg : RMConfig) (info : SymbolInfo)
    (s : RiskState) (sl entry b : ℚ) (m M : ℕ)
    (hts : 0 < info.trade_tick_size)
    (hsv : 0 < info.volume_step)
    (hm : info.volume_min = (m : ℚ) / 100)
    (hM : info.volume_max = (M : ℚ) / 100)
    (hmM : m ≤ M) :
    ¬(0 < (compute_lot_size cfg (some info) s sl entry b).1 ∧
      (compute_lot_size cfg (some info) s sl entry b).1 < info.volume_min) ∧
    (compute_lot_size cfg (some info) s sl entry b).1 ≤ info.volume_max := by
  have hmax0 : (0 : ℚ) ≤ info.volume_max := by rw [hM]; positivity
  have hminmax : info.volume_min ≤ info.volume_max := by
    rw [hm, hM]
    gcongr
  have hrmin : round2 info.volume_min = info.volume_min := by
    rw [hm, round2_natCast_div]
  have hrmax : round2 info.volume_max = info.volume_max := by
    rw [hM, round2_natCast_div]
  simp only [compute_lot_size]
  split_ifs with h1 h2 h3 h4 h5 h6
  · exact ⟨by simp, by simpa using hmax0⟩
  · exact ⟨by simp, by simpa using hmax0⟩
  · exact ⟨by simp, by simpa using hmax0⟩
  · exact ⟨by simp, by simpa using hmax0⟩
  · exact ⟨by simp, by simpa using hmax0⟩
  · -- clamped to the maximum volume
    refine ⟨?_, ?_⟩
    · simp only [hrmax]
      rintro ⟨-, hlt⟩
      exact absurd (lt_of_le_of_lt hminmax hlt) (lt_irrefl _)
    · simp only [hrmax]
      exact le_refl _
  · -- quantized value between min and max: rounding keeps it there
    have hlo : info.volume_min ≤
        round2 ((⌊b * (cfg.risk_percent_per_trade / 100) /
          (|entry - sl| / info.trade_tick_size * info.trade_tick_value)
          / info.volume_step⌋ : ℚ) * info.volume_step) := by
      rw [← hrmin]
      exact round2_mono _ _ (not_lt.mp h5)
    have hhi : round2 ((⌊b * (cfg.risk_percent_per_trade / 100) /
        (|entry - sl| / info.trade_tick_size * info.trade_tick_value)
        / info.volume_step⌋ : ℚ) * info.volume_step) ≤ info.volume_max := by
      rw [← hrmax]
      exact round2_mono _ _ (not_lt.mp h6)
    refine ⟨?_, hhi⟩
    rintro ⟨-, hlt⟩
    exact absurd (lt_of_le_of_lt hlo hlt) (lt_irrefl _)

/-- Witness for C4 (amended): a realistic micro-lot spec with
`volume_step = 0.001` (not on the 0.01 grid), `volume_min = 0.01`,
`volume_max = 1`, sizing a 1%-risk trade. -/
theorem compute_lot_size_volume_bounds_witness :
    (0 : ℚ) < 1/1000 ∧
    ¬(0 < (compute_lot_size ⟨50, 5, 1⟩
        (some ⟨1/100000, 1, 100, 1/1000, 1/100, 1⟩) ⟨0, 0, false⟩ 1 2 1000).1 ∧
      (compute_lot_size ⟨50, 5, 1⟩
        (some ⟨1/100000, 1, 100, 1/1000, 1/100, 1⟩) ⟨0, 0, false⟩ 1 2 1000).1 <
        (1 : ℚ)/100) ∧
    (compute_lot_size ⟨50, 5, 1⟩
      (some ⟨1/100000, 1, 100, 1/1000, 1/100, 1⟩) ⟨0, 0, false⟩ 1 2 1000).1 ≤ 1 := by
  have h := compute_lot_size_volume_bounds ⟨50, 5, 1⟩
    ⟨1/100000, 1, 100, 1/1000, 1/100, 1⟩ ⟨0, 0, false⟩ 1 2 1000 1 100
    (by norm_num) (by norm_num) (by norm_num) (by norm_num) (by norm_num)
  exact ⟨by norm_num, h.1, by simpa using h.2⟩

/-! ## Theorems: trailing-stop evaluator -/

/-- Counterexample to C5 as stated: with the configured point count
`sl_points = 100` (the only configured number of price increments in
the option surface) and `point = 1`, the evaluator still computes its
candidate stop from 500 increments: for a BUY at 1000 with price
1500 and trailing multiple 1/2 it requests stop 1250 = 1500 − 0.5·500,
not 1450 = 1500 − 0.5·`spec_risk_unit`. -/
theorem process_position_ignores_configured_unit :
    process_position ⟨⟨true, 1, 1/2⟩, 100⟩ 1 ⟨1, 1000, 900, 1500, 0⟩ =
      some 1250 ∧
    (1500 : ℚ) - (1/2) * spec_risk_unit ⟨⟨true, 1, 1/2⟩, 100⟩ 1 = 1450 ∧
    (1250 : ℚ) ≠ 1450 := by
  refine ⟨?_, by norm_num [spec_risk_unit], by norm_num⟩
  norm_num [process_position, r_value]

/-- C5 (amended): the risk unit used by the trailing-stop evaluator
to compute the activation distance and the candidate stop is the
hardcoded 500 price increments (`r_points = 500` in
`src/executor.py`), independent of every configuration value other
than the activation and trailing multiples themselves: two
configurations sharing the same `trailing` table produce identical
per-position decisions. -/
theorem process_position_risk_unit_hardcoded (cfg cfg' : ExecConfig)
    (point : ℚ) (pos : OpenPosition)
    (htrail : cfg.trailing = cfg'.trailing) :
    r_value point = 500 * point ∧
    process_position cfg point pos = process_position cfg' point pos := by
  refine ⟨rfl, ?_⟩
  unfold process_position
  rw [htrail]

/-- Witness for C5 (amended): two configurations that differ only in
`sl_points` (100 vs 500) emit the same request. -/
theorem process_position_risk_unit_hardcoded_witness :
    r_value 1 = 500 * 1 ∧
    process_position ⟨⟨true, 1, 1/2⟩, 100⟩ 1 ⟨1, 1000, 900, 1500, 0⟩ =
      process_position ⟨⟨true, 1, 1/2⟩, 500⟩ 1 ⟨1, 1000, 900, 1500, 0⟩ :=
  process_position_risk_unit_hardcoded ⟨⟨true, 1, 1/2⟩, 100⟩
    ⟨⟨true, 1, 1/2⟩, 500⟩ 1 ⟨1, 1000, 900, 1500, 0⟩ rfl

theorem process_position_improves (cfg : ExecConfig) (point : ℚ)
    (pos : OpenPosition) (nsl : ℚ)
    (h : process_position cfg point pos = some nsl) :
    (pos.type = 0 ∧ pos.sl < nsl) ∨
    (pos.type = 1 ∧ (nsl < pos.sl ∨ pos.sl = 0)) := by
  simp only [process_position] at h
  split_ifs at h with h0 ht0 hp hgt ht1 hp' hc
  · rw [Option.some_inj] at h
    subst h
    exact Or.inl ⟨ht0, hgt⟩
  · rw [Option.some_inj] at h
    subst h
    rcases hc with hc | hc
    · exact Or.inr ⟨ht1, Or.inr hc⟩
    · exact Or.inr ⟨ht1, Or.inl hc⟩

/-- C6: every stop-modification request emitted by
`manage_trailing_stops` strictly improves the existing stop of the
matching position: strictly higher for a BUY (type 0), strictly
lower (or the existing stop absent) for a SELL (type 1); no request
ever moves a stop backward. -/
theorem manage_trailing_stops_improve (cfg : ExecConfig) (point : ℚ)
    (positions : List OpenPosition) (req : ModRequest)
    (hreq : req ∈ manage_trailing_stops cfg point positions) :
    ∃ pos ∈ positions, req.ticket = pos.ticket ∧
      ((pos.type = 0 ∧ pos.sl < req.new_sl) ∨
       (pos.type = 1 ∧ (req.new_sl < pos.sl ∨ pos.sl = 0))) := by
  unfold manage_trailing_stops at hreq
  split_ifs at hreq with hen
  · exact absurd hreq (List.not_mem_nil req)
  · obtain ⟨pos, hmem, hmap⟩ := List.mem_filterMap.mp hreq
    obtain ⟨nsl, hproc, hreq'⟩ := Option.map_eq_some'.mp hmap
    refine ⟨pos, hmem, ?_, ?_⟩
    · rw [← hreq']
    · have := process_position_improves cfg point pos nsl hproc
      rw [← hreq']
      exact this

/-- Witness for C6: a BUY position with stop 900 receives the
improved stop 1250 > 900. -/
theorem manage_trailing_stops_improve_witness :
    (⟨1, 1250⟩ : ModRequest) ∈
      manage_trailing_stops ⟨⟨true, 1, 1/2⟩, 500⟩ 1 [⟨1, 1000, 900, 1500, 0⟩] ∧
    ∃ pos ∈ [(⟨1, 1000, 900, 1500, 0⟩ : OpenPosition)],
      (⟨1, 1250⟩ : ModRequest).ticket = pos.ticket ∧
      ((pos.type = 0 ∧ pos.sl < (⟨1, 1250⟩ : ModRequest).new_sl) ∨
       (pos.type = 1 ∧ ((⟨1, 1250⟩ : ModRequest).new_sl < pos.sl ∨ pos.sl = 0))) := by
  have hmem : (⟨1, 1250⟩ : ModRequest) ∈
      manage_trailing_stops ⟨⟨true, 1, 1/2⟩, 500⟩ 1 [⟨1, 1000, 900, 1500, 0⟩] := by
    norm_num [manage_trailing_stops, process_position, r_value, List.filterMap]
  exact ⟨hmem, manage_trailing_stops_improve ⟨⟨true, 1, 1/2⟩, 500⟩ 1
    [⟨1, 1000, 900, 1500, 0⟩] ⟨1, 1250⟩ hmem⟩

/-! ## Theorems: signal engine -/

@[simp] theorem obLE_none_left (b : Option ℚ) : obLE none b = false := rfl

@[simp] theorem obLE_none_right (a : Option ℚ) : obLE a none = false := by
  cases a <;> rfl

@[simp] theorem obLT_none_left (b : Option ℚ) : obLT none b = false := rfl

@[simp] theorem obLT_none_right (a : Option ℚ) : obLT a none = false := by
  cases a <;> rfl

@[simp] theorem obGE_none_left (b : Option ℚ) : obGE none b = false := rfl

@[simp] theorem obGE_none_right (a : Option ℚ) : obGE a none = false := by
  cases a <;> rfl

@[simp] theorem obGT_none_left (b : Option ℚ) : obGT none b = false := rfl

@[simp] theorem obGT_none_right (a : Option ℚ) : obGT a none = false := by
  cases a <;> rfl

@[simp] theorem obBand_none (lo hi : ℚ) : obBand lo none hi = false := rfl

@[simp] theorem omap2_none_left (f : ℚ → ℚ → ℚ) (b : Option ℚ) :
    omap2 f none b = none := by
  cases b <;> rfl

@[simp] theorem omap2_none_right (f : ℚ → ℚ → ℚ) (a : Option ℚ) :
    omap2 f a none = none := by
  cases a <;> rfl

/-- C2 (amended): undefined warm-up values make `generate` reject at
the zone stage when the latest mid-TF RSI is undefined and at the
confirmation stage when the latest fast-TF RSI-WMA is undefined (a
`NaN` comparison is false, so every accepting condition of those
stages fails); and the ADX pre-filter only filters when the latest
fast-TF ADX is defined — when it is undefined, `generate` equals the
remaining cascade.  (An undefined bias-stage value does *not* cause
rejection: it resolves the bias to SHORT, see the counterexample.) -/
theorem generate_warmup_behaviour (cfg : StratConfig) (df3 df2 df1 : List Bar)
    (symbol : String) (point : Option ℚ) :
    (((df2.getLastD defBar).rsi = none ∨ (df1.getLastD defBar).rsi_wma = none) →
      generate cfg df3 df2 df1 symbol point = none) ∧
    ((df3 ≠ [] ∧ df2 ≠ [] ∧ df1 ≠ [] ∧ (df1.getLastD defBar).adx = none) →
      generate cfg df3 df2 df1 symbol point =
        cascadeAfterAdx cfg df3 df2 df1 symbol point) := by
  constructor
  · rintro (h | h)
    · rw [List.getLastD_eq_getLast?] at h
      simp [generate, cascadeAfterAdx, h, ite_self]
    · rw [List.getLastD_eq_getLast?] at h
      simp [generate, cascadeAfterAdx, h, ite_self]
  · rintro ⟨h3, h2, h1, hadx⟩
    rw [List.getLastD_eq_getLast?] at hadx
    simp [generate, List.isEmpty_eq_false.mpr h3, List.isEmpty_eq_false.mpr h2,
      List.isEmpty_eq_false.mpr h1, hadx]

/-- Witness for C2 (amended): a mid-TF frame whose latest RSI is
still warming up yields no signal. -/
theorem generate_warmup_behaviour_witness :
    (([⟨0, 0, 0, 0, none, some 50, none, none⟩] :
        List Bar).getLastD defBar).rsi = none ∧
    generate ⟨25, 75, 25, 3, "fixed", 5, 5, 2⟩
      [⟨0, 0, 0, 0, some 80, some 50, none, none⟩]
      [⟨0, 0, 0, 0, none, some 50, none, none⟩]
      [⟨1, 0, 0, 100, some 49, some 50, some 49, none⟩,
       ⟨2, 0, 0, 100, some 49, some 50, some 51, none⟩]
      "EURUSD" (some 1) = none := by
  refine ⟨rfl, ?_⟩
  exact (generate_warmup_behaviour ⟨25, 75, 25, 3, "fixed", 5, 5, 2⟩
    [⟨0, 0, 0, 0, some 80, some 50, none, none⟩]
    [⟨0, 0, 0, 0, none, some 50, none, none⟩]
    [⟨1, 0, 0, 100, some 49, some 50, some 49, none⟩,
     ⟨2, 0, 0, 100, some 49, some 50, some 51, none⟩]
    "EURUSD" (some 1)).1 (Or.inl rfl)

/-- Counterexample to C2 as stated: the slow (bias) timeframe's
latest RSI and WMA are still entirely inside their warm-up windows
(`none`), yet `generate` does not reject — the undefined comparisons
resolve the bias to SHORT, and with a defined SHORT zone and SHORT
crossover the cascade emits a signal. -/
theorem generate_warmup_counterexample :
    (([⟨0, 0, 0, 0, none, none, none, none⟩] : List Bar).getLastD defBar).rsi
      = none ∧
    generate ⟨25, 75, 25, 3, "fixed", 5, 5, 2⟩
      [⟨0, 0, 0, 0, none, none, none, none⟩]
      [⟨0, 0, 0, 0, some 50, some 50, none, none⟩]
      [⟨1, 0, 0, 100, some 51, some 50, some 51, none⟩,
       ⟨2, 0, 0, 100, some 49, some 50, some 49, none⟩]
      "EURUSD" (some 1) =
      some ⟨"EURUSD", "SHORT", 100, 105, 90, 4/5, "Crossover", 2⟩ := by
  refine ⟨rfl, ?_⟩
  have hs : ("SHORT" : String) = "LONG" ↔ False := by simp
  have hf : ("fixed" : String) = "swing" ↔ False := by simp
  norm_num [generate, cascadeAfterAdx, obGE, obLE, obGT, obLT, obBand, omap2,
    defBar, List.getLastD, hs, hf]

/-- C7: with slow-TF RSI 80 (≥ upper 75) the bias is LONG and the
in-zone mid frame plus the LONG EMA/WMA crossover on the fast frame
produce a LONG signal; with the identical zone and confirmation
inputs but slow-TF RSI 20 (≤ lower 25) the bias is SHORT and the
LONG-direction crossover produces no signal. -/
theorem generate_bias_scenarios :
    (generate ⟨25, 75, 25, 3, "fixed", 5, 5, 2⟩
      [⟨0, 0, 0, 0, some 80, some 50, none, none⟩]
      [⟨0, 0, 0, 0, some 50, some 50, none, none⟩]
      [⟨1, 0, 0, 100, some 49, some 50, some 49, none⟩,
       ⟨2, 0, 0, 100, some 49, some 50, some 51, none⟩]
      "TEST" (some 1)).map Signal.side = some "LONG" ∧
    generate ⟨25, 75, 25, 3, "fixed", 5, 5, 2⟩
      [⟨0, 0, 0, 0, some 20, some 50, none, none⟩]
      [⟨0, 0, 0, 0, some 50, some 50, none, none⟩]
      [⟨1, 0, 0, 100, some 49, some 50, some 49, none⟩,
       ⟨2, 0, 0, 100, some 49, some 50, some 51, none⟩]
      "TEST" (some 1) = none := by
  have hs : ("SHORT" : String) = "LONG" ↔ False := by simp
  have hf : ("fixed" : String) = "swing" ↔ False := by simp
  constructor
  · norm_num [generate, cascadeAfterAdx, obGE, obLE, obGT, obLT, obBand, omap2,
      defBar, List.getLastD, hs, hf]
  · norm_num [generate, cascadeAfterAdx, obGE, obLE, obGT, obLT, obBand, omap2,
      defBar, List.getLastD, hs, hf]

/-! ## Theorems: indicator library -/

theorem mem_zipWith_exists {α β γ : Type} (f : α → β → γ) :
    ∀ (as : List α) (bs : List β), ∀ x ∈ List.zipWith f as bs,
      ∃ a ∈ as, ∃ b ∈ bs, x = f a b := by
  intro as
  induction as with
  | nil =>
      intro bs x hx
      simp at hx
  | cons a as ih =>
      intro bs x hx
      cases bs with
      | nil => simp at hx
      | cons b bs =>
          rw [List.zipWith_cons_cons] at hx
          rcases List.mem_cons.mp hx with h | h
          · exact ⟨a, List.mem_cons_self _ _, b, List.mem_cons_self _ _, h⟩
          · obtain ⟨a', ha', b', hb', hxx⟩ := ih bs x h
            exact ⟨a', List.mem_cons_of_mem _ ha', b',
              List.mem_cons_of_mem _ hb', hxx⟩

theorem mem_zipWith3_exists {α β γ δ : Type} (f : α → β → γ → δ) :
    ∀ (as : List α) (bs : List β) (cs : List γ),
      ∀ x ∈ List.zipWith3 f as bs cs,
        ∃ a ∈ as, ∃ b ∈ bs, ∃ cc ∈ cs, x = f a b cc := by
  intro as
  induction as with
  | nil =>
      intro bs cs x hx
      simp [List.zipWith3] at hx
  | cons a as ih =>
      intro bs cs x hx
      cases bs with
      | nil => simp [List.zipWith3] at hx
      | cons b bs =>
          cases cs with
          | nil => simp [List.zipWith3] at hx
          | cons cc cs =>
              rw [show List.zipWith3 f (a :: as) (b :: bs) (cc :: cs) =
                f a b cc :: List.zipWith3 f as bs cs from rfl] at hx
              rcases List.mem_cons.mp hx with h | h
              · exact ⟨a, List.mem_cons_self _ _, b, List.mem_cons_self _ _,
                  cc, List.mem_cons_self _ _, h⟩
              · obtain ⟨a', ha', b', hb', c', hc', hxx⟩ := ih bs cs x h
                exact ⟨a', List.mem_cons_of_mem _ ha', b',
                  List.mem_cons_of_mem _ hb', c', List.mem_cons_of_mem _ hc', hxx⟩

theorem map_opt_defined (g : ℚ → ℚ) (xs : OSeries) :
    ∀ o ∈ xs.map (Option.map g), ∀ v, o = some v →
      ∃ x, some x ∈ xs ∧ v = g x := by
  intro o ho v hv
  obtain ⟨x', hx', rfl⟩ := List.mem_map.mp ho
  cases x' with
  | none => simp at hv
  | some x => exact ⟨x, hx', by simpa using hv.symm⟩

theorem replace0_defined (eps : ℚ) (xs : OSeries) :
    ∀ o ∈ replace0 eps xs, ∀ v, o = some v →
      ∃ x, some x ∈ xs ∧ v = if x = 0 then eps else x := by
  intro o ho
  exact map_opt_defined _ xs o (by simpa [replace0] using ho)

theorem zipO_defined (f : ℚ → ℚ → ℚ) (xs ys : OSeries) :
    ∀ o ∈ zipO f xs ys, ∀ v, o = some v →
      ∃ x, some x ∈ xs ∧ ∃ y, some y ∈ ys ∧ v = f x y := by
  intro o ho v hv
  obtain ⟨a, ha, b, hb, rfl⟩ := mem_zipWith_exists (omap2 f) xs ys o ho
  cases a with
  | none =>
      cases b <;> simp [omap2] at hv
  | some x =>
      cases b with
      | none => simp [omap2] at hv
      | some y =>
          refine ⟨x, ha, y, hb, ?_⟩
          simpa [omap2] using hv.symm

theorem ewmStep_spec (a : ℚ) (P : ℚ → Prop)
    (hstep : ∀ mv w, P mv → P w → P ((1 - a) * mv + a * w))
    (m : Option ℚ) (v : ℚ) (hm : ∀ w, m = some w → P w) (hv : P v) :
    P (ewmStep a m v) := by
  cases m with
  | none => exact hv
  | some mv => exact hstep mv v (hm mv rfl) hv

theorem ewmGo_defined_spec (a : ℚ) (minp : ℕ) (P : ℚ → Prop)
    (hstep : ∀ mv w, P mv → P w → P ((1 - a) * mv + a * w)) :
    ∀ (xs : OSeries) (m : Option ℚ) (cnt : ℕ),
      (∀ w, m = some w → P w) →
      (∀ o ∈ xs, ∀ w, o = some w → P w) →
      ∀ o ∈ ewmGo a minp m cnt xs, ∀ w, o = some w → P w := by
  intro xs
  induction xs with
  | nil =>
      intro m cnt _ _ o ho
      simp [ewmGo] at ho
  | cons x rest ih =>
      intro m cnt hm hxs o ho w hw
      cases x with
      | none =>
          rw [show ewmGo a minp m cnt (none :: rest) =
            (if minp ≤ cnt then m else none) :: ewmGo a minp m cnt rest
            from rfl] at ho
          rcases List.mem_cons.mp ho with h | h
          · subst h
            split_ifs at hw with hc
            exact hm w hw
          · exact ih m cnt hm
              (fun o' ho' => hxs o' (List.mem_cons_of_mem _ ho')) o h w hw
      | some v =>
          have hPm' : P (ewmStep a m v) :=
            ewmStep_spec a P hstep m v hm
              (hxs (some v) (List.mem_cons_self _ _) v rfl)
          rw [show ewmGo a minp m cnt (some v :: rest) =
            (if minp ≤ cnt + 1 then some (ewmStep a m v) else none) ::
              ewmGo a minp (some (ewmStep a m v)) (cnt + 1) rest from rfl] at ho
          rcases List.mem_cons.mp ho with h | h
          · subst h
            split_ifs at hw with hc
            cases hw
            exact hPm'
          · exact ih (some (ewmStep a m v)) (cnt + 1)
              (fun w' hw' => by cases hw'; exact hPm')
              (fun o' ho' => hxs o' (List.mem_cons_of_mem _ ho')) o h w hw

theorem ewm_defined_spec (a : ℚ) (minp : ℕ) (P : ℚ → Prop)
    (hstep : ∀ mv w, P mv → P w → P ((1 - a) * mv + a * w)) (xs : OSeries)
    (hxs : ∀ o ∈ xs, ∀ w, o = some w → P w) :
    ∀ o ∈ ewm a minp xs, ∀ w, o = some w → P w := by
  intro o ho
  exact ewmGo_defined_spec a minp P hstep xs none 0 (by simp) hxs o ho

theorem ewm_map_some_spec (a : ℚ) (minp : ℕ) (P : ℚ → Prop)
    (hstep : ∀ mv w, P mv → P w → P ((1 - a) * mv + a * w)) (xs : List ℚ)
    (hxs : ∀ x ∈ xs, P x) :
    ∀ o ∈ ewm a minp (xs.map some), ∀ w, o = some w → P w := by
  refine ewm_defined_spec a minp P hstep _ ?_
  intro o ho w hw
  obtain ⟨x, hx, rfl⟩ := List.mem_map.mp ho
  cases hw
  exact hxs _ hx

theorem alpha_bounds (period : ℕ) (hp : 1 ≤ period) :
    0 ≤ (1 : ℚ) / (period : ℚ) ∧ (1 : ℚ) / (period : ℚ) ≤ 1 := by
  have hper : (1 : ℚ) ≤ (period : ℚ) := by exact_mod_cast hp
  constructor
  · positivity
  · rw [div_le_one (by linarith)]
    exact hper

theorem convex_nonneg (a : ℚ) (ha0 : 0 ≤ a) :
    ∀ mv w, 0 ≤ mv → 0 ≤ w → a ≤ 1 → 0 ≤ (1 - a) * mv + a * w := by
  intro mv w hmv hw ha1
  have h1 : 0 ≤ (1 - a) * mv := mul_nonneg (by linarith) hmv
  have h2 : 0 ≤ a * w := mul_nonneg ha0 hw
  linarith

theorem convex_icc (a : ℚ) (ha0 : 0 ≤ a) (ha1 : a ≤ 1) :
    ∀ mv w, (0 ≤ mv ∧ mv ≤ 100) → (0 ≤ w ∧ w ≤ 100) →
      0 ≤ (1 - a) * mv + a * w ∧ (1 - a) * mv + a * w ≤ 100 := by
  intro mv w hmv hw
  constructor
  · exact convex_nonneg a ha0 mv w hmv.1 hw.1 ha1
  · have h1 : (1 - a) * mv ≤ (1 - a) * 100 :=
      mul_le_mul_of_nonneg_left hmv.2 (by linarith)
    have h2 : a * w ≤ a * 100 := mul_le_mul_of_nonneg_left hw.2 ha0
    linarith

theorem rsi_defined_bounds (xs : List ℚ) (period : ℕ) (hp : 1 ≤ period) :
    ∀ o ∈ rsi xs period, ∀ v, o = some v → 0 ≤ v ∧ v ≤ 100 := by
  obtain ⟨ha0, ha1⟩ := alpha_bounds period hp
  have hstep : ∀ mv w, 0 ≤ mv → 0 ≤ w →
      0 ≤ (1 - (1 : ℚ) / (period : ℚ)) * mv + ((1 : ℚ) / (period : ℚ)) * w :=
    fun mv w hmv hw => convex_nonneg _ ha0 mv w hmv hw ha1
  intro o ho v hv
  simp only [rsi] at ho
  obtain ⟨r, hr_mem, hv_eq⟩ := map_opt_defined _ _ o ho v hv
  obtain ⟨u, hu_mem, d, hd_mem, hr_eq⟩ := zipO_defined _ _ _ _ hr_mem r rfl
  have hup : ∀ o' ∈ (diffS xs).map (Option.map fun d' => max d' 0),
      ∀ w, o' = some w → 0 ≤ w := by
    intro o' ho' w hw
    obtain ⟨x, _, rfl⟩ := map_opt_defined _ _ o' ho' w hw
    exact le_max_right _ _
  have hdown : ∀ o' ∈ (diffS xs).map (Option.map fun d' => max (-d') 0),
      ∀ w, o' = some w → 0 ≤ w := by
    intro o' ho' w hw
    obtain ⟨x, _, rfl⟩ := map_opt_defined _ _ o' ho' w hw
    exact le_max_right _ _
  have hu0 : 0 ≤ u := ewm_defined_spec _ _ _ hstep _ hup _ hu_mem u rfl
  obtain ⟨x, hx_mem, hd_eq⟩ := replace0_defined _ _ _ hd_mem d rfl
  have hx0 : 0 ≤ x := ewm_defined_spec _ _ _ hstep _ hdown _ hx_mem x rfl
  have hd0 : 0 < d := by
    rw [hd_eq]
    split_ifs with h0
    · norm_num [eps9]
    · exact lt_of_le_of_ne hx0 (Ne.symm h0)
  have hr0 : 0 ≤ r := by
    rw [hr_eq]
    exact div_nonneg hu0 hd0.le
  subst hv_eq
  have h1r : (0 : ℚ) < 1 + r := by linarith
  have hle : 100 / (1 + r) ≤ 100 := by
    rw [div_le_iff₀ h1r]
    nlinarith
  have hpos : 0 < 100 / (1 + r) := by positivity
  exact ⟨by linarith, by linarith⟩

theorem tr3max_some_nonneg (p q w : ℚ) : 0 ≤ tr3max p q (some w) := by
  simp only [tr3max]
  have h1 : (0 : ℚ) ≤ |p - w| := abs_nonneg _
  have h2 : |p - w| ≤ max |p - w| |q - w| := le_max_left _ _
  have h3 : max |p - w| |q - w| ≤ max (p - q) (max |p - w| |q - w|) :=
    le_max_right _ _
  linarith

theorem trList_nonneg (hi lo cl : List ℚ)
    (hhl : lo.headD 0 ≤ hi.headD 0) : ∀ x ∈ trList hi lo cl, 0 ≤ x := by
  intro x hx
  cases hi with
  | nil => simp [trList, List.zipWith3] at hx
  | cons h0 hs =>
      cases lo with
      | nil => simp [trList, List.zipWith3] at hx
      | cons l0 ls =>
          cases cl with
          | nil => simp [trList, shift1, List.zipWith3] at hx
          | cons c0 cs =>
              rw [show trList (h0 :: hs) (l0 :: ls) (c0 :: cs) =
                tr3max h0 l0 none ::
                  List.zipWith3 tr3max hs ls (((c0 :: cs).dropLast).map some)
                from rfl] at hx
              rcases List.mem_cons.mp hx with h | h
              · subst h
                simp only [tr3max]
                simp only [List.headD_cons] at hhl
                linarith
              · obtain ⟨p, _, q, _, w?, hw, rfl⟩ :=
                  mem_zipWith3_exists _ _ _ _ x h
                obtain ⟨w, _, rfl⟩ := List.mem_map.mp hw
                exact tr3max_some_nonneg p q w

theorem dmPlus_nonneg (a b : Option ℚ) : 0 ≤ dmPlus a b := by
  cases a with
  | none => cases b <;> exact le_refl 0
  | some u =>
      cases b with
      | none => exact le_refl 0
      | some d =>
          simp only [dmPlus]
          split_ifs with hh
          · exact hh.2.le
          · exact le_refl 0

theorem dmMinus_nonneg (a b : Option ℚ) : 0 ≤ dmMinus a b := by
  cases a with
  | none => cases b <;> exact le_refl 0
  | some u =>
      cases b with
      | none => exact le_refl 0
      | some d =>
          simp only [dmMinus]
          split_ifs with hh
          · exact hh.2.le
          · exact le_refl 0

theorem zipWith_dmPlus_nonneg (um dm : OSeries) :
    ∀ x ∈ List.zipWith dmPlus um dm, 0 ≤ x := by
  intro x hx
  obtain ⟨a, _, b, _, rfl⟩ := mem_zipWith_exists dmPlus um dm x hx
  exact dmPlus_nonneg a b

theorem zipWith_dmMinus_nonneg (um dm : OSeries) :
    ∀ x ∈ List.zipWith dmMinus um dm, 0 ≤ x := by
  intro x hx
  obtain ⟨a, _, b, _, rfl⟩ := mem_zipWith_exists dmMinus um dm x hx
  exact dmMinus_nonneg a b

theorem adx_defined_bounds (hi lo cl : List ℚ) (period : ℕ) (hp : 1 ≤ period)
    (hhl : lo.headD 0 ≤ hi.headD 0) :
    ∀ o ∈ adx hi lo cl period, ∀ v, o = some v → 0 ≤ v ∧ v ≤ 100 := by
  obtain ⟨ha0, ha1⟩ := alpha_bounds period hp
  have hstep : ∀ mv w, 0 ≤ mv → 0 ≤ w →
      0 ≤ (1 - (1 : ℚ) / (period : ℚ)) * mv + ((1 : ℚ) / (period : ℚ)) * w :=
    fun mv w hmv hw => convex_nonneg _ ha0 mv w hmv hw ha1
  intro o ho v hv
  simp only [adx] at ho
  refine ewm_defined_spec _ _ (fun w => 0 ≤ w ∧ w ≤ 100)
    (convex_icc _ ha0 ha1) _ ?_ o ho v hv
  intro o' ho' w hw
  obtain ⟨p, hp_mem, m, hm_mem, rfl⟩ := zipO_defined _ _ _ _ ho' w hw
  -- the smoothed true range after the epsilon replacement is positive
  have htr_pos : ∀ trv', some trv' ∈
      replace0 eps9 (ewm ((1 : ℚ) / (period : ℚ)) period
        ((trList hi lo cl).map some)) → 0 < trv' := by
    intro trv' htrv'
    obtain ⟨x, hx_mem, hx_eq⟩ := replace0_defined _ _ _ htrv' trv' rfl
    have hx0 : 0 ≤ x :=
      ewm_map_some_spec _ _ _ hstep _ (trList_nonneg hi lo cl hhl) _ hx_mem x rfl
    rw [hx_eq]
    split_ifs with h0
    · norm_num [eps9]
    · exact lt_of_le_of_ne hx0 (Ne.symm h0)
  have hp0 : 0 ≤ p := by
    obtain ⟨dmv, hdmv, trv, htrv, rfl⟩ := zipO_defined _ _ _ _ hp_mem p rfl
    have hdmv0 : 0 ≤ dmv :=
      ewm_map_some_spec _ _ _ hstep _ (zipWith_dmPlus_nonneg _ _) _ hdmv dmv rfl
    have htrv0 : 0 < trv := htr_pos trv htrv
    positivity
  have hm0 : 0 ≤ m := by
    obtain ⟨dmv, hdmv, trv, htrv, rfl⟩ := zipO_defined _ _ _ _ hm_mem m rfl
    have hdmv0 : 0 ≤ dmv :=
      ewm_map_some_spec _ _ _ hstep _ (zipWith_dmMinus_nonneg _ _) _ hdmv dmv rfl
    have htrv0 : 0 < trv := htr_pos trv htrv
    positivity
  by_cases hpm : p + m = 0
  · have hp' : p = 0 := by linarith
    have hm' : m = 0 := by linarith
    rw [if_pos hpm, hp', hm']
    norm_num
  · rw [if_neg hpm]
    have hD : 0 < p + m := lt_of_le_of_ne (by linarith) (Ne.symm hpm)
    have habs : |p - m| ≤ p + m := abs_le.mpr ⟨by linarith, by linarith⟩
    have hq0 : 0 ≤ |p - m| / (p + m) := div_nonneg (abs_nonneg _) hD.le
    have hq1 : |p - m| / (p + m) ≤ 1 := (div_le_one hD).mpr habs
    constructor
    · linarith
    · nlinarith

/-- C9 (amended): for every period ≥ 1 every defined output of `rsi`
lies in [0, 100] for every input series; every defined output of
`adx` lies in [0, 100] provided the first bar satisfies
`low ≤ high`.  (Without that sanity condition the first true-range
entry `high[0] − low[0]` — the only one not protected by absolute
values — can drive smoothed TR negative and push ADX outside
[0, 100], see the counterexample.) -/
theorem indicator_outputs_in_range (period : ℕ) (hp : 1 ≤ period) :
    (∀ xs : List ℚ, ∀ o ∈ rsi xs period, ∀ v, o = some v →
      0 ≤ v ∧ v ≤ 100) ∧
    (∀ hi lo cl : List ℚ, lo.headD 0 ≤ hi.headD 0 →
      ∀ o ∈ adx hi lo cl period, ∀ v, o = some v → 0 ≤ v ∧ v ≤ 100) :=
  ⟨fun xs => rsi_defined_bounds xs period hp,
   fun hi lo cl hhl => adx_defined_bounds hi lo cl period hp hhl⟩

/-- Counterexample to C9 as stated: a first bar with `low > high`
(`high = [0,1,1]`, `low = [100,1,1]`, `close = [1,1,1]`, period 2)
makes the smoothed true range negative and `adx` outputs −100,
outside [0, 100]. -/
theorem adx_out_of_range_counterexample :
    some (-100 : ℚ) ∈ adx [0, 1, 1] [100, 1, 1] [1, 1, 1] 2 ∧
    ¬(0 ≤ (-100 : ℚ)) := by
  constructor
  · norm_num [adx, trList, shift1, tr3max, diffS, dmPlus, dmMinus, zipO,
      omap2, replace0, eps9, ewm, ewmGo, ewmStep]
  · norm_num

/-- Witness for C9 (amended): concrete defined outputs — an RSI value
0 on the series [0, 10, 10] and an ADX value 100 on a well-formed
two-bar series — certified in range by the theorem. -/
theorem indicator_outputs_in_range_witness :
    ((0 : ℚ) ≤ 0 ∧ (0 : ℚ) ≤ 100) ∧ ((0 : ℚ) ≤ 100 ∧ (100 : ℚ) ≤ 100) := by
  have h := indicator_outputs_in_range 1 (le_refl 1)
  constructor
  · exact h.1 [0, 10, 10] (some 0)
      (by norm_num [rsi, diffS, zipO, omap2, replace0, eps9, ewm, ewmGo,
        ewmStep]) 0 rfl
  · exact h.2 [2, 3] [1, 2] [1, 2] (by norm_num) (some 100)
      (by norm_num [adx, trList, shift1, tr3max, diffS, dmPlus, dmMinus,
        zipO, omap2, replace0, eps9, ewm, ewmGo, ewmStep]) 100 rfl
